import Mathlib

/-!
Verification of the vectorbt simulation core against its specification.

The development shallowly embeds the Python sources:

* `src/vectorbt/utils/math_.py` — tolerance-aware float helpers, over an
  exact model `Fl` of IEEE floats (NaN, signed infinities, finite rationals);
* `src/vectorbt/base/grouping.py` — `get_group_lens_nb` and the `Grouper`
  permission checks, with `pd.factorize` modelled by first-occurrence codes;
* `src/vectorbt/portfolio/base.py` — the input-validation and call-sequence
  resolution prefixes of the simulation drivers, and the asset-value masking
  in `Portfolio.get_asset_value`.

The numba kernels (`vectorbt.portfolio.nb.*`) are not part of the sources;
where a claim depends on them they are modelled from the specification, with
doc comments starting `Modelled from the spec:`.
-/

/-- A floating-point value modelled exactly: NaN, a signed infinity
(`true` = positive), or a finite rational. -/
inductive Fl where
  | nan : Fl
  | inf : Bool → Fl
  | fin : ℚ → Fl
deriving DecidableEq

/-- Counterpart of `np.isnan`. -/
def Fl.isNaN : Fl → Bool
  | .nan => true
  | _ => false

/-- Counterpart of `np.isinf`. -/
def Fl.isInf : Fl → Bool
  | .inf _ => true
  | _ => false

/-- IEEE strict less-than: any comparison involving NaN is false. -/
def Fl.lt : Fl → Fl → Bool
  | .nan, _ => false
  | _, .nan => false
  | .inf a, .inf b => !a && b
  | .inf a, .fin _ => !a
  | .fin _, .inf b => b
  | .fin a, .fin b => decide (a < b)

/-- IEEE equality: false whenever either side is NaN. -/
def Fl.feq : Fl → Fl → Bool
  | .inf a, .inf b => a == b
  | .fin a, .fin b => a == b
  | _, _ => false

/-- IEEE inequality `!=`: true whenever either side is NaN. -/
def Fl.fne (a b : Fl) : Bool := !(a.feq b)

/-- Negation of a float. -/
def Fl.neg : Fl → Fl
  | .nan => .nan
  | .inf b => .inf !b
  | .fin q => .fin (-q)

/-- Absolute value of a float. -/
def Fl.abs : Fl → Fl
  | .nan => .nan
  | .inf _ => .inf true
  | .fin q => .fin |q|

/-- IEEE addition: NaN propagates, opposite infinities give NaN. -/
def Fl.add : Fl → Fl → Fl
  | .nan, _ => .nan
  | _, .nan => .nan
  | .inf a, .inf b => if a = b then .inf a else .nan
  | .inf a, .fin _ => .inf a
  | .fin _, .inf b => .inf b
  | .fin a, .fin b => .fin (a + b)

/-- IEEE multiplication: NaN propagates, infinity times zero gives NaN. -/
def Fl.mul : Fl → Fl → Fl
  | .nan, _ => .nan
  | _, .nan => .nan
  | .inf a, .inf b => .inf (a == b)
  | .inf a, .fin q => if q = 0 then .nan else .inf (a == decide (0 < q))
  | .fin q, .inf b => if q = 0 then .nan else .inf (b == decide (0 < q))
  | .fin a, .fin b => .fin (a * b)

/-- Counterpart of `np.sign`: NaN maps to NaN, infinities to `±1`. -/
def Fl.sign : Fl → Fl
  | .nan => .nan
  | .inf b => .fin (if b then 1 else -1)
  | .fin q => .fin (if q < 0 then -1 else if q = 0 then 0 else 1)

/-- Default for the `use_tol` setting (`settings['math']['use_tol']`). -/
def use_tol_default : Bool := true

/-- Default relative tolerance, `rel_tol = 1e-9`. -/
def rel_tol_default : ℚ := 1 / 10 ^ 9

/-- Default absolute tolerance, `abs_tol = 1e-12`. -/
def abs_tol_default : ℚ := 1 / 10 ^ 12

/-- Embedding of `is_close_nb` from `utils/math_.py`: approximately equal,
with NaN and infinite inputs always reported as not close. -/
def is_close_nb (a b : Fl) (use_tol : Bool) (rel_tol abs_tol : ℚ) : Bool :=
  if a.isNaN || b.isNaN then false
  else if a.isInf || b.isInf then false
  else if a.feq b then true
  else
    match a, b with
    | .fin x, .fin y =>
      use_tol && decide (|x - y| ≤ max (rel_tol * max |x| |y|) abs_tol)
    | _, _ => false

/-- Embedding of `is_close_or_less_nb`: the inner `is_close_nb` call leaves
`use_tol` at the module default, as in the source. -/
def is_close_or_less_nb (a b : Fl) (use_tol : Bool) (rel_tol abs_tol : ℚ) : Bool :=
  if use_tol && is_close_nb a b use_tol_default rel_tol abs_tol then true
  else a.lt b

/-- Embedding of `is_less_nb`. -/
def is_less_nb (a b : Fl) (use_tol : Bool) (rel_tol abs_tol : ℚ) : Bool :=
  if use_tol && is_close_nb a b use_tol_default rel_tol abs_tol then false
  else a.lt b

/-- Embedding of `is_addition_zero_nb`: whether the addition of two values
yields (approximately) zero. -/
def is_addition_zero_nb (a b : Fl) (use_tol : Bool) (rel_tol abs_tol : ℚ) : Bool :=
  if use_tol then
    if a.sign.fne b.sign then
      is_close_nb a.abs b.abs use_tol_default rel_tol abs_tol
    else
      is_close_nb (a.add b) (.fin 0) use_tol_default rel_tol abs_tol
  else a.feq b.neg

/-- Embedding of `add_nb`: add two floats, snapping near-cancelling sums
to an exact zero. -/
def add_nb (a b : Fl) (use_tol : Bool) (rel_tol abs_tol : ℚ) : Fl :=
  if use_tol && is_addition_zero_nb a b use_tol_default rel_tol abs_tol then .fin 0
  else a.add b

/-- The numpy sign of a rational, as a rational. -/
def numSign (x : ℚ) : ℚ := if x < 0 then -1 else if x = 0 then 0 else 1

/-- Condition under which `add_nb` (under the default tolerances) snaps the
sum of two finite values to an exact zero: either the numpy signs differ and
the magnitudes are approximately equal, or the signs agree and the sum is
approximately zero. -/
def addZeroCond (x y : ℚ) : Bool :=
  if numSign x ≠ numSign y then
    |x| == |y| ||
      decide (abs (|x| - |y|) ≤ max (rel_tol_default * max |x| |y|) abs_tol_default)
  else
    x + y == 0 ||
      decide (|x + y| ≤ max (rel_tol_default * |x + y|) abs_tol_default)

theorem Fl_sign_fin (x : ℚ) : Fl.sign (.fin x) = .fin (numSign x) := rfl

theorem Fl_fne_fin (a b : ℚ) : Fl.fne (.fin a) (.fin b) = !(a == b) := rfl

theorem is_close_fin (a b rt at_ : ℚ) :
    is_close_nb (.fin a) (.fin b) true rt at_ =
      (a == b || decide (|a - b| ≤ max (rt * max |a| |b|) at_)) := by
  by_cases h : a = b <;>
    simp [is_close_nb, Fl.isNaN, Fl.isInf, Fl.feq, h]

/-- C10: under the default settings, `is_close_nb` returns `False` whenever
either argument is NaN or infinite — in particular on `(+inf, +inf)` and
`(-inf, -inf)` — so `is_close_or_less_nb` and `is_less_nb` reduce to the
strict IEEE `<` comparison on such inputs. -/
theorem is_close_nonfinite_spec (a b : Fl)
    (h : a.isNaN = true ∨ b.isNaN = true ∨ a.isInf = true ∨ b.isInf = true) :
    is_close_nb a b use_tol_default rel_tol_default abs_tol_default = false ∧
    is_close_or_less_nb a b use_tol_default rel_tol_default abs_tol_default = a.lt b ∧
    is_less_nb a b use_tol_default rel_tol_default abs_tol_default = a.lt b ∧
    is_close_nb (.inf true) (.inf true) use_tol_default rel_tol_default abs_tol_default = false ∧
    is_close_nb (.inf false) (.inf false) use_tol_default rel_tol_default abs_tol_default = false := by
  have hc : is_close_nb a b use_tol_default rel_tol_default abs_tol_default = false := by
    cases a <;> cases b <;> simp_all [is_close_nb, Fl.isNaN, Fl.isInf]
  refine ⟨hc, ?_, ?_, by decide, by decide⟩
  · simp [is_close_or_less_nb, hc]
  · simp [is_less_nb, hc]

theorem is_close_nonfinite_spec_witness :
    (Fl.isNaN .nan = true ∨ Fl.isNaN (.fin 0) = true ∨
      Fl.isInf .nan = true ∨ Fl.isInf (.fin 0) = true) ∧
    (is_close_nb .nan (.fin 0) use_tol_default rel_tol_default abs_tol_default = false ∧
     is_close_or_less_nb .nan (.fin 0) use_tol_default rel_tol_default abs_tol_default =
       Fl.lt .nan (.fin 0) ∧
     is_less_nb .nan (.fin 0) use_tol_default rel_tol_default abs_tol_default =
       Fl.lt .nan (.fin 0) ∧
     is_close_nb (.inf true) (.inf true) use_tol_default rel_tol_default abs_tol_default = false ∧
     is_close_nb (.inf false) (.inf false) use_tol_default rel_tol_default abs_tol_default = false) :=
  ⟨Or.inl rfl, is_close_nonfinite_spec .nan (.fin 0) (Or.inl rfl)⟩


/-- C5 counterexample: two equal tiny values of the same sign.  Their signs do
not differ, yet `add_nb` under default tolerances returns exact `0.0` rather
than the ordinary sum `2e-13`, refuting the claim that every pair other than
an opposite-sign approximately-cancelling one gets the ordinary sum. -/
theorem add_nb_same_sign_cex :
    numSign (1 / 10 ^ 13) = numSign (1 / 10 ^ 13) ∧
    add_nb (.fin (1 / 10 ^ 13)) (.fin (1 / 10 ^ 13))
        use_tol_default rel_tol_default abs_tol_default = .fin 0 ∧
    Fl.add (.fin (1 / 10 ^ 13)) (.fin (1 / 10 ^ 13)) = .fin (2 / 10 ^ 13) ∧
    Fl.fin 0 ≠ .fin (2 / 10 ^ 13) := by
  have hsum : Fl.add (.fin ((1 : ℚ) / 10 ^ 13)) (.fin (1 / 10 ^ 13)) =
      .fin (2 / 10 ^ 13) := by
    show Fl.fin (1 / 10 ^ 13 + 1 / 10 ^ 13) = _
    norm_num
  refine ⟨rfl, ?_, hsum, ?_⟩
  · have hz : is_addition_zero_nb (.fin ((1 : ℚ) / 10 ^ 13)) (.fin (1 / 10 ^ 13))
        use_tol_default rel_tol_default abs_tol_default = true := by
      unfold is_addition_zero_nb
      rw [Fl_sign_fin, Fl_fne_fin, hsum]
      have h1 : (numSign ((1 : ℚ) / 10 ^ 13) == numSign (1 / 10 ^ 13)) = true := by
        simp
      rw [h1]
      simp only [use_tol_default, Bool.not_true, Bool.false_eq_true, if_false, if_true]
      rw [is_close_fin]
      have h2 : decide (|(2 : ℚ) / 10 ^ 13 - 0| ≤
          max (rel_tol_default * max |(2 : ℚ) / 10 ^ 13| |(0 : ℚ)|) abs_tol_default) = true := by
        rw [decide_eq_true_eq]
        rw [rel_tol_default, abs_tol_default]
        norm_num
        rw [abs_of_nonneg (by norm_num : (0 : ℚ) ≤ 1 / 5000000000000)]
        norm_num
      rw [h2]
      simp
    unfold add_nb
    rw [hz]
    simp [use_tol_default]
  · simp only [ne_eq, Fl.fin.injEq]
    norm_num

/-- C5 (amended): for finite values under the default tolerances, `add_nb`
returns exact `0.0` precisely when either the numpy signs differ and the
magnitudes are approximately equal, or the signs agree and the sum is itself
approximately zero; in every other case it returns the ordinary sum. -/
theorem add_nb_default_spec (x y : ℚ) :
    add_nb (.fin x) (.fin y) use_tol_default rel_tol_default abs_tol_default =
      (if addZeroCond x y then .fin 0 else .fin (x + y)) := by
  have hadd : Fl.add (.fin x) (.fin y) = .fin (x + y) := rfl
  have habs : Fl.abs (.fin x) = Fl.fin |x| := rfl
  have habsy : Fl.abs (.fin y) = Fl.fin |y| := rfl
  by_cases hs : numSign x = numSign y
  · have h1 : (numSign x == numSign y) = true := by simp [hs]
    have hmax : max |x + y| |(0 : ℚ)| = |x + y| := by
      rw [abs_zero]
      exact max_eq_left (abs_nonneg _)
    simp only [add_nb, is_addition_zero_nb, use_tol_default, addZeroCond,
      Fl_sign_fin, Fl_fne_fin, h1, beq_self_eq_true, Bool.not_true,
      Bool.false_eq_true, if_false, if_true, hadd, habs, habsy, is_close_fin,
      Bool.true_and, ne_eq, hs, not_true_eq_false, sub_zero, hmax]
  · have h1 : (numSign x == numSign y) = false := by simp [hs]
    simp only [add_nb, is_addition_zero_nb, use_tol_default, addZeroCond,
      Fl_sign_fin, Fl_fne_fin, h1, Bool.not_false, if_true, hadd, habs, habsy,
      is_close_fin, Bool.true_and, ne_eq, hs, not_false_eq_true, abs_abs]

/-- Embedding of the loop of `get_group_lens_nb` from `base/grouping.py`:
`last` is the running group code (initialized to `-1`) and `len` the length
of the current run; a run is emitted when the code changes (provided
`last ≠ -1`) and once more at the end of the array.  A code smaller than
`last` raises `ValueError`. -/
def group_lens_go : Int → ℕ → List Int → Except String (List ℕ)
  | _, len, [] => .ok [len]
  | last, len, g :: rest =>
    if g < last then
      .error "Groups must be coherent and sorted (such as [0, 0, 1, 2, 2, ...])"
    else if g ≠ last then
      if last ≠ -1 then
        match group_lens_go g 1 rest with
        | .ok tail => .ok (len :: tail)
        | .error e => .error e
      else group_lens_go g (len + 1) rest
    else group_lens_go g (len + 1) rest

/-- Embedding of `get_group_lens_nb`: return the count per contiguous group
of a coherent, sorted array of group codes. -/
def get_group_lens_nb : List Int → Except String (List ℕ)
  | [] => .ok []
  | g :: rest => group_lens_go (-1) 0 (g :: rest)

theorem group_lens_go_ok (rest : List Int) :
    ∀ (last : Int) (len : ℕ), 0 ≤ last → 0 < len →
    List.Chain (· ≤ ·) last rest →
    ∃ lens, group_lens_go last len rest = .ok lens ∧
      (∀ l ∈ lens, 0 < l) ∧ lens.sum = len + rest.length ∧
      lens.length = (last :: rest).toFinset.card := by
  induction rest with
  | nil =>
    intro last len _ hlen _
    exact ⟨[len], rfl, by simpa using hlen, by simp, by simp⟩
  | cons g rest ih =>
    intro last len hlast hlen hchain
    rw [List.chain_cons] at hchain
    obtain ⟨hle, hchain2⟩ := hchain
    have hng : ¬ g < last := not_lt.mpr hle
    by_cases heq : g = last
    · subst heq
      obtain ⟨lens, hres, hpos, hsum, hlen2⟩ :=
        ih g (len + 1) hlast (Nat.succ_pos _) hchain2
      refine ⟨lens, ?_, hpos, ?_, ?_⟩
      · simpa [group_lens_go] using hres
      · rw [hsum]
        simp only [List.length_cons]
        omega
      · rw [hlen2]
        simp [List.toFinset_cons]
    · have hlast1 : last ≠ -1 := by omega
      have hlt : last < g := lt_of_le_of_ne hle (Ne.symm heq)
      have hgpos : 0 ≤ g := le_trans hlast hle
      obtain ⟨tail, hres, hpos, hsum, hlen2⟩ :=
        ih g 1 hgpos Nat.one_pos hchain2
      have hpair : ∀ x ∈ rest, g ≤ x :=
        (List.pairwise_cons.mp (List.chain_iff_pairwise.mp hchain2)).1
      have hnotmem : last ∉ (g :: rest).toFinset := by
        intro hmem
        rcases List.mem_cons.mp (List.mem_toFinset.mp hmem) with h | h
        · exact absurd h (ne_of_lt hlt)
        · exact absurd (hpair last h) (not_le.mpr hlt)
      refine ⟨len :: tail, ?_, ?_, ?_, ?_⟩
      · simp only [group_lens_go, hng, if_false, heq, hlast1, ne_eq,
          not_false_eq_true, if_true, hres]
      · intro l hl
        rcases List.mem_cons.mp hl with h | h
        · exact h ▸ hlen
        · exact hpos l h
      · simp only [List.sum_cons, List.length_cons, hsum]
        omega
      · have h1 : (last :: g :: rest).toFinset = insert last ((g :: rest).toFinset) := by
          simp [List.toFinset_cons]
        rw [List.length_cons, hlen2, h1, Finset.card_insert_of_not_mem hnotmem]

theorem group_lens_go_err (rest : List Int) :
    ∀ (last : Int) (len : ℕ),
    ¬ List.Chain (· ≤ ·) last rest →
    ∃ e, group_lens_go last len rest = .error e := by
  induction rest with
  | nil =>
    intro last len h
    exact absurd List.Chain.nil h
  | cons g rest ih =>
    intro last len h
    by_cases hlt : g < last
    · exact ⟨"Groups must be coherent and sorted (such as [0, 0, 1, 2, 2, ...])",
        by simp [group_lens_go, hlt]⟩
    · have hle : last ≤ g := not_lt.mp hlt
      have h2 : ¬ List.Chain (· ≤ ·) g rest := by
        intro hc
        exact h (List.chain_cons.mpr ⟨hle, hc⟩)
      by_cases heq : g = last
      · subst heq
        obtain ⟨e, he⟩ := ih g (len + 1) h2
        exact ⟨e, by simp [group_lens_go, he]⟩
      · by_cases hlast1 : last = -1
        · subst hlast1
          obtain ⟨e, he⟩ := ih g (len + 1) h2
          refine ⟨e, ?_⟩
          simp only [group_lens_go, hlt, if_false, heq, ne_eq,
            not_false_eq_true, if_true, not_true_eq_false, he]
        · obtain ⟨e, he⟩ := ih g 1 h2
          refine ⟨e, ?_⟩
          simp only [group_lens_go, hlt, if_false, heq, ne_eq,
            not_false_eq_true, if_true, hlast1, he]

/-- C6 counterexample: `[-5, -5]` is a non-decreasing array of group codes,
yet `get_group_lens_nb` raises, because the first code is compared against
the initial sentinel `last_group = -1`. -/
theorem get_group_lens_nb_cex :
    List.Chain' (· ≤ ·) [(-5 : Int), -5] ∧
    get_group_lens_nb [(-5 : Int), -5] =
      .error "Groups must be coherent and sorted (such as [0, 0, 1, 2, 2, ...])" := by
  exact ⟨List.chain'_cons.mpr ⟨le_refl _, List.chain'_singleton _⟩, rfl⟩

/-- C6 (amended): for every array of non-negative group codes, if the codes
are non-decreasing then `get_group_lens_nb` returns one positive length per
distinct group, and the lengths sum to the number of columns; if some code
is smaller than its predecessor it raises a `ValueError` instead. -/
theorem get_group_lens_nb_spec (groups : List Int) (hnn : ∀ g ∈ groups, 0 ≤ g) :
    (List.Chain' (· ≤ ·) groups →
      ∃ lens, get_group_lens_nb groups = .ok lens ∧ (∀ l ∈ lens, 0 < l) ∧
        lens.sum = groups.length ∧ lens.length = groups.toFinset.card) ∧
    (¬ List.Chain' (· ≤ ·) groups →
      ∃ e, get_group_lens_nb groups = .error e) := by
  cases groups with
  | nil =>
    refine ⟨fun _ => ⟨[], rfl, by simp, by simp, by simp⟩, fun h => absurd ?_ h⟩
    exact List.chain'_nil
  | cons g rest =>
    have hg : 0 ≤ g := hnn g (List.mem_cons_self g rest)
    have h1 : ¬ g < (-1 : Int) := by omega
    have h2 : g ≠ (-1 : Int) := by omega
    have hstep : get_group_lens_nb (g :: rest) = group_lens_go g 1 rest := by
      show group_lens_go (-1) 0 (g :: rest) = _
      simp [group_lens_go, h1, h2]
    constructor
    · intro hchain
      have hch : List.Chain (· ≤ ·) g rest := hchain
      obtain ⟨lens, hres, hpos, hsum, hcard⟩ :=
        group_lens_go_ok rest g 1 hg Nat.one_pos hch
      refine ⟨lens, hstep ▸ hres, hpos, ?_, hcard⟩
      rw [hsum, List.length_cons]
      omega
    · intro hchain
      have hch : ¬ List.Chain (· ≤ ·) g rest := fun hc => hchain hc
      obtain ⟨e, he⟩ := group_lens_go_err rest g 1 hch
      exact ⟨e, hstep ▸ he⟩

theorem get_group_lens_nb_spec_witness :
    (∀ g ∈ ([0, 0, 1] : List Int), 0 ≤ g) ∧
    ((List.Chain' (· ≤ ·) ([0, 0, 1] : List Int) →
      ∃ lens, get_group_lens_nb [0, 0, 1] = .ok lens ∧ (∀ l ∈ lens, 0 < l) ∧
        lens.sum = ([0, 0, 1] : List Int).length ∧
        lens.length = ([0, 0, 1] : List Int).toFinset.card) ∧
     (¬ List.Chain' (· ≤ ·) ([0, 0, 1] : List Int) →
      ∃ e, get_group_lens_nb [0, 0, 1] = .error e)) :=
  ⟨by decide, get_group_lens_nb_spec [0, 0, 1] (by decide)⟩

/-- Argument accepted by `Grouper` methods for `group_by`: Python's `None`,
`False`, `True`, or a sequence of labels (modelled as naturals). -/
inductive GroupByArg where
  | noneArg : GroupByArg
  | offArg : GroupByArg
  | onArg : GroupByArg
  | labels : List ℕ → GroupByArg
deriving DecidableEq

/-- Helper for `pd.factorize`: emit the code of each element, where `seen`
holds the distinct labels collected so far in first-occurrence order. -/
def factorizeAux : List ℕ → List ℕ → List ℕ
  | _, [] => []
  | seen, x :: xs =>
    match List.findIdx? (fun y => y == x) seen with
    | some i => i :: factorizeAux seen xs
    | none => seen.length :: factorizeAux (seen ++ [x]) xs

/-- Codes assigned by `pd.factorize`: each label is mapped to the index of
its value among the distinct labels in first-occurrence order. -/
def factorize (l : List ℕ) : List ℕ := factorizeAux [] l

/-- Embedding of `Grouper` from `base/grouping.py`: after `__init__`, `None`
and `False` collapse to no grouping, otherwise the converted label index is
stored.  Only the length of the wrapped index matters here. -/
structure Grouper where
  index_len : ℕ
  group_by : Option (List ℕ)
  allow_enable : Bool
  allow_disable : Bool
  allow_modify : Bool
deriving DecidableEq

/-- Embedding of `group_by_to_index`: `None`/`False` pass through, `True`
becomes one constant label per index entry, and a label sequence must have
the same length as the index. -/
def group_by_to_index (n : ℕ) (gb : GroupByArg) : Except String GroupByArg :=
  match gb with
  | .noneArg => .ok .noneArg
  | .offArg => .ok .offArg
  | .onArg => .ok (.labels (List.replicate n 0))
  | .labels ls =>
    if ls.length = n then .ok (.labels ls)
    else .error "group_by and index must have the same length"

/-- Embedding of `Grouper.is_grouped`. -/
def Grouper.is_grouped (g : Grouper) (gb : GroupByArg) : Bool :=
  match gb with
  | .offArg => false
  | .noneArg => g.group_by.isSome
  | _ => true

/-- Embedding of `Grouper.is_grouping_enabled`. -/
def Grouper.is_grouping_enabled (g : Grouper) (gb : GroupByArg) : Bool :=
  g.group_by.isNone && g.is_grouped gb

/-- Embedding of `Grouper.is_grouping_disabled`. -/
def Grouper.is_grouping_disabled (g : Grouper) (gb : GroupByArg) : Bool :=
  g.group_by.isSome && !(g.is_grouped gb)

/-- Embedding of `Grouper.is_grouping_modified`: a label change that
factorizes to the same codes does not count as a modification. -/
def Grouper.is_grouping_modified (g : Grouper) (gb : GroupByArg) : Except String Bool :=
  match gb, g.group_by with
  | .noneArg, _ => .ok false
  | .offArg, none => .ok false
  | gb, cur =>
    match group_by_to_index g.index_len gb with
    | .error e => .error e
    | .ok gb2 =>
      match gb2, cur with
      | .labels ls, some cs =>
        if ls = cs then .ok false
        else .ok (decide (factorize ls ≠ factorize cs))
      | _, _ => .ok true

/-- Embedding of `Grouper.check_group_by`, with the `allow_*` overrides left
at their constructor values. -/
def Grouper.check_group_by (g : Grouper) (gb : GroupByArg) : Except String Unit :=
  if g.is_grouping_enabled gb then
    if !g.allow_enable then .error "Enabling grouping is not allowed" else .ok ()
  else if g.is_grouping_disabled gb then
    if !g.allow_disable then .error "Disabling grouping is not allowed" else .ok ()
  else
    match g.is_grouping_modified gb with
    | .error e => .error e
    | .ok m =>
      if m && !g.allow_modify then .error "Modifying groups is not allowed"
      else .ok ()

/-- Codes of the current grouping as computed by `get_groups_and_index`:
`np.arange` when ungrouped, `pd.factorize` codes otherwise. -/
def Grouper.current_codes (g : Grouper) : List ℕ :=
  match g.group_by with
  | none => List.range g.index_len
  | some cs => factorize cs

/-- C9 counterexample: an ungrouped `Grouper` with `allow_modify=False`
accepts a `group_by` that merges both columns into one group — a different
partition than the current singleton one — because enabling grouping is
governed by `allow_enable`, not `allow_modify`. -/
theorem check_group_by_cex :
    Grouper.check_group_by ⟨2, none, true, true, false⟩ (.labels [0, 0]) = .ok () ∧
    factorize [0, 0] ≠ Grouper.current_codes ⟨2, none, true, true, false⟩ := by
  exact ⟨rfl, by decide⟩

/-- C9 (amended): for a `Grouper` holding an existing grouping with
`allow_modify=False` and `allow_disable=True`, `check_group_by` on a
same-length label sequence succeeds exactly when the proposed labels
factorize to the same group codes as the current ones (relabelings pass),
while `False` (disabling) and `None` (keeping) are always accepted.
Enabling a grouping on an ungrouped `Grouper` is governed by `allow_enable`
instead, as the counterexample shows. -/
theorem check_group_by_spec (n : ℕ) (aE : Bool) (cur ls : List ℕ)
    (hl : ls.length = n) :
    (Grouper.check_group_by ⟨n, some cur, aE, true, false⟩ (.labels ls) = .ok () ↔
      factorize ls = factorize cur) ∧
    Grouper.check_group_by ⟨n, some cur, aE, true, false⟩ .offArg = .ok () ∧
    Grouper.check_group_by ⟨n, some cur, aE, true, false⟩ .noneArg = .ok () := by
  refine ⟨?_, rfl, rfl⟩
  by_cases he : ls = cur
  · subst he
    simp [Grouper.check_group_by, Grouper.is_grouping_enabled,
      Grouper.is_grouping_disabled, Grouper.is_grouped,
      Grouper.is_grouping_modified, group_by_to_index, hl]
  · by_cases hf : factorize ls = factorize cur <;>
      simp [Grouper.check_group_by, Grouper.is_grouping_enabled,
        Grouper.is_grouping_disabled, Grouper.is_grouped,
        Grouper.is_grouping_modified, group_by_to_index, hl, he, hf]

theorem check_group_by_spec_witness :
    ([1, 1, 2] : List ℕ).length = 3 ∧
    ((Grouper.check_group_by ⟨3, some [5, 5, 7], true, true, false⟩
        (.labels [1, 1, 2]) = .ok () ↔
      factorize [1, 1, 2] = factorize [5, 5, 7]) ∧
     Grouper.check_group_by ⟨3, some [5, 5, 7], true, true, false⟩ .offArg = .ok () ∧
     Grouper.check_group_by ⟨3, some [5, 5, 7], true, true, false⟩ .noneArg = .ok ()) :=
  ⟨rfl, check_group_by_spec 3 true [5, 5, 7] [1, 1, 2] rfl⟩

/-- Modelled from the spec: `nb.asset_value_nb` is the plain elementwise
product `close · assets` (the numba kernel is not among the sources). -/
def asset_value_nb (close assets : ℕ → ℕ → Fl) (i c : ℕ) : Fl :=
  (close i c).mul (assets i c)

/-- Numpy elementwise comparison `assets == 0`: false for NaN entries. -/
def np_eq_zero (x : Fl) : Bool := x.feq (.fin 0)

/-- Embedding of the array part of `Portfolio.get_asset_value` from
`portfolio/base.py`: the copy of `close` is zeroed wherever `assets == 0`
and then handed to `asset_value_nb`. -/
def get_asset_value (close assets : ℕ → ℕ → Fl) (i c : ℕ) : Fl :=
  asset_value_nb
    (fun i c => if np_eq_zero (assets i c) then .fin 0 else close i c)
    assets i c

/-- C4: the derived asset value is the product `close · assets`, except that
wherever `assets` is exactly zero the result is exactly zero, even when the
close price there is NaN. -/
theorem get_asset_value_spec (close assets : ℕ → ℕ → Fl) (i c : ℕ) :
    get_asset_value close assets i c =
      (if assets i c = .fin 0 then .fin 0 else (close i c).mul (assets i c)) := by
  unfold get_asset_value asset_value_nb np_eq_zero
  rcases h : assets i c with _ | b | q
  · simp [h, Fl.feq]
  · simp [h, Fl.feq]
  · by_cases hq : q = 0
    · subst hq
      simp [h, Fl.feq, Fl.mul]
    · simp [h, Fl.feq, hq]

/-- One order record: row index, fill size, fill price and side
(`isBuy = true` for a buy). -/
structure OrderRec where
  idx : ℕ
  size : ℚ
  price : ℚ
  isBuy : Bool
deriving DecidableEq

/-- Signed fill size of a record: positive for buys, negative for sells. -/
def OrderRec.signedSize (r : OrderRec) : ℚ := if r.isBuy then r.size else -r.size

/-- Per-column simulation state: cash balance, position and the append-only
order records. -/
structure SimState where
  cash : ℚ
  position : ℚ
  recs : List OrderRec
deriving DecidableEq

/-- Modelled from the spec: one bar of the from-orders driver for a single
column with `size_type=Amount`, default order price (`+inf` resolves to the
bar close), zero fees and default `allow_partial` —
`nb.simulate_from_orders_nb` is not among the sources.  A positive size buys
(reduced to the largest affordable amount when cash is short, rejected when
that amount is zero), a negative size sells, a zero size is ignored. -/
def from_orders_step (size : ℚ) (st : SimState) (i : ℕ) (price : ℚ) : SimState :=
  if 0 < size then
    if size * price ≤ st.cash then
      { cash := st.cash - size * price, position := st.position + size,
        recs := st.recs ++ [⟨i, size, price, true⟩] }
    else
      let psize := st.cash / price
      if 0 < psize then
        { cash := st.cash - psize * price, position := st.position + psize,
          recs := st.recs ++ [⟨i, psize, price, true⟩] }
      else st
  else if size < 0 then
    { cash := st.cash + -size * price, position := st.position + size,
      recs := st.recs ++ [⟨i, -size, price, false⟩] }
  else st

/-- Modelled from the spec: the bar loop of the from-orders driver, with the
scalar `size` broadcast to every bar. -/
def from_orders_go (size : ℚ) : ℕ → SimState → List ℚ → SimState
  | _, st, [] => st
  | i, st, p :: rest => from_orders_go size (i + 1) (from_orders_step size st i p) rest

/-- Modelled from the spec: the single-column from-orders driver over the
whole close series. -/
def simulate_from_orders (close : List ℚ) (size init_cash : ℚ) : SimState :=
  from_orders_go size 0 ⟨init_cash, 0, []⟩ close

/-- Modelled from the spec: `asset_flow[i]` is the sum of signed fills of
the records at row `i` (`nb.asset_flow_nb` is not among the sources). -/
def asset_flow_at (recs : List OrderRec) (i : ℕ) : ℚ :=
  ((recs.filter (fun r => r.idx == i)).map OrderRec.signedSize).sum

/-- Modelled from the spec: `assets[i]` accumulates `asset_flow` on top of
the initial position. -/
def assets_at (recs : List OrderRec) (init_position : ℚ) (i : ℕ) : ℚ :=
  init_position + ((List.range (i + 1)).map (asset_flow_at recs)).sum

/-- Modelled from the spec: `cash_flow[i]` is minus the signed cash spent by
the records at row `i` (`nb.cash_flow_nb` is not among the sources). -/
def cash_flow_at (recs : List OrderRec) (i : ℕ) : ℚ :=
  ((recs.filter (fun r => r.idx == i)).map
    (fun r => -(r.signedSize * r.price))).sum

/-- Modelled from the spec: `cash[i]` accumulates `cash_flow` on top of the
initial cash. -/
def cash_at (recs : List OrderRec) (init_cash : ℚ) (i : ℕ) : ℚ :=
  init_cash + ((List.range (i + 1)).map (cash_flow_at recs)).sum

/-- Modelled from the spec: `value[i] = cash[i] + close[i] · assets[i]`. -/
def value_at (close : List ℚ) (recs : List OrderRec)
    (init_cash init_position : ℚ) (i : ℕ) : ℚ :=
  cash_at recs init_cash i + close.getD i 0 * assets_at recs init_position i

theorem simulate_S1_recs :
    simulate_from_orders [1, 2, 3, 4, 5] 10 100 =
      ⟨0, 40, [⟨0, 10, 1, true⟩, ⟨1, 10, 2, true⟩,
               ⟨2, 10, 3, true⟩, ⟨3, 10, 4, true⟩]⟩ := by
  have h0 : from_orders_step 10 ⟨100, 0, []⟩ 0 1 =
      ⟨90, 10, [⟨0, 10, 1, true⟩]⟩ := by
    unfold from_orders_step
    norm_num
  have h1 : from_orders_step 10 ⟨90, 10, [⟨0, 10, 1, true⟩]⟩ 1 2 =
      ⟨70, 20, [⟨0, 10, 1, true⟩, ⟨1, 10, 2, true⟩]⟩ := by
    unfold from_orders_step
    norm_num
  have h2 : from_orders_step 10 ⟨70, 20, [⟨0, 10, 1, true⟩, ⟨1, 10, 2, true⟩]⟩ 2 3 =
      ⟨40, 30, [⟨0, 10, 1, true⟩, ⟨1, 10, 2, true⟩, ⟨2, 10, 3, true⟩]⟩ := by
    unfold from_orders_step
    norm_num
  have h3 : from_orders_step 10
      ⟨40, 30, [⟨0, 10, 1, true⟩, ⟨1, 10, 2, true⟩, ⟨2, 10, 3, true⟩]⟩ 3 4 =
      ⟨0, 40, [⟨0, 10, 1, true⟩, ⟨1, 10, 2, true⟩,
               ⟨2, 10, 3, true⟩, ⟨3, 10, 4, true⟩]⟩ := by
    unfold from_orders_step
    norm_num
  have h4 : from_orders_step 10
      ⟨0, 40, [⟨0, 10, 1, true⟩, ⟨1, 10, 2, true⟩,
               ⟨2, 10, 3, true⟩, ⟨3, 10, 4, true⟩]⟩ 4 5 =
      ⟨0, 40, [⟨0, 10, 1, true⟩, ⟨1, 10, 2, true⟩,
               ⟨2, 10, 3, true⟩, ⟨3, 10, 4, true⟩]⟩ := by
    unfold from_orders_step
    norm_num
  show from_orders_go 10 0 ⟨100, 0, []⟩ [1, 2, 3, 4, 5] = _
  simp only [from_orders_go, h0, h1, h2, h3, h4, Nat.reduceAdd]

/-- C1 counterexample: scenario S1 (`close=[1,2,3,4,5]`, scalar `size=10`,
`init_cash=100`) yields four buy records, not one — the driver issues an
order at every bar, exactly as the docstring of `Portfolio.from_orders` in
the source shows ("Buy 10 units each tick", final cash 0) — so the claimed
single order, `cash=90` and `value[4]=140` do not hold. -/
theorem from_orders_S1_cex :
    (simulate_from_orders [1, 2, 3, 4, 5] 10 100).recs.length = 4 ∧
    (simulate_from_orders [1, 2, 3, 4, 5] 10 100).recs.length ≠ 1 ∧
    cash_at (simulate_from_orders [1, 2, 3, 4, 5] 10 100).recs 100 4 = 0 ∧
    (0 : ℚ) ≠ 90 := by
  rw [simulate_S1_recs]
  refine ⟨rfl, by decide, ?_, by norm_num⟩
  norm_num [cash_at, cash_flow_at, OrderRec.signedSize, List.range_succ,
    List.range_zero]

/-- C1 (amended): on S1 the from-orders driver buys 10 units at every bar it
can afford: four records at bars 0–3 with prices 1–4, and the derived
series end with `assets = 40`, `cash = 0` and `value[4] = 200`. -/
theorem from_orders_S1_amended :
    (simulate_from_orders [1, 2, 3, 4, 5] 10 100).recs =
      [⟨0, 10, 1, true⟩, ⟨1, 10, 2, true⟩, ⟨2, 10, 3, true⟩, ⟨3, 10, 4, true⟩] ∧
    assets_at (simulate_from_orders [1, 2, 3, 4, 5] 10 100).recs 0 4 = 40 ∧
    cash_at (simulate_from_orders [1, 2, 3, 4, 5] 10 100).recs 100 4 = 0 ∧
    value_at [1, 2, 3, 4, 5] (simulate_from_orders [1, 2, 3, 4, 5] 10 100).recs
      100 0 4 = 200 := by
  rw [simulate_S1_recs]
  refine ⟨rfl, ?_, ?_, ?_⟩ <;>
    norm_num [value_at, cash_at, assets_at, cash_flow_at, asset_flow_at,
      OrderRec.signedSize, List.range_succ, List.range_zero]

/-- Embedding of the `group_select`/`cash_sharing` validation prefix of
`Portfolio.from_orders` (portfolio/base.py): the check runs before the
simulation, which is abstracted here as an arbitrary kernel invocation. -/
def from_orders_driver (group_select cash_sharing : Bool)
    (sim : Unit → List OrderRec) : Except String (List OrderRec) :=
  if !group_select && cash_sharing then
    .error "group_select cannot be disabled if cash_sharing=True"
  else .ok (sim ())

/-- Embedding of the same validation prefix of `Portfolio.from_signals`. -/
def from_signals_driver (group_select cash_sharing : Bool)
    (sim : Unit → List OrderRec) : Except String (List OrderRec) :=
  if !group_select && cash_sharing then
    .error "group_select cannot be disabled if cash_sharing=True"
  else .ok (sim ())

/-- C7: with cash sharing enabled and the wrapper option `group_select`
disabled, both drivers fail with the typed `ValueError` before the
simulation kernel is invoked — whatever records the kernel would have
produced, none are returned. -/
theorem group_select_validation_spec (sim sim2 : Unit → List OrderRec) :
    from_orders_driver false true sim =
      .error "group_select cannot be disabled if cash_sharing=True" ∧
    from_signals_driver false true sim2 =
      .error "group_select cannot be disabled if cash_sharing=True" :=
  ⟨rfl, rfl⟩

/-- The call-sequence modes of `CallSeqType`. -/
inductive CallSeqType where
  | default
  | reversed
  | random
  | auto
deriving DecidableEq

/-- Embedding of the call-sequence resolution in `Portfolio.from_orders`
(portfolio/base.py lines 2645–2651): `Auto` is replaced by `Default` and
the `auto_call_seq` flag is raised. -/
def from_orders_resolve_call_seq (cs : CallSeqType) : CallSeqType × Bool :=
  if cs = .auto then (.default, true) else (cs, false)

/-- Embedding of the call-sequence handling in `Portfolio.from_order_func`
(portfolio/base.py lines 4614–4621): in the non-flexible (strict) mode,
`Auto` raises instead of silently falling back to the default sequence. -/
def from_order_func_check_call_seq (flexible : Bool) (cs : CallSeqType) :
    Except String CallSeqType :=
  if !flexible then
    if cs = .auto then
      .error "CallSeqType.Auto must be implemented manually. Use sort_call_seq_nb in pre_segment_func_nb."
    else .ok cs
  else .ok cs

/-- C8: `from_orders` accepts `call_seq=Auto` by converting it to the
default sequence plus the dynamic-sorting flag, while the strict
`from_order_func` rejects `Auto` with an error. -/
theorem call_seq_auto_spec :
    from_orders_resolve_call_seq .auto = (.default, true) ∧
    from_order_func_check_call_seq false .auto =
      .error "CallSeqType.Auto must be implemented manually. Use sort_call_seq_nb in pre_segment_func_nb." :=
  ⟨rfl, rfl⟩

/-- A 64-bit linear congruential generator step, standing in for the
pseudorandom stream that `set_seed(seed)` pins down. -/
def lcg_next (s : ℕ) : ℕ := (6364136223846793005 * s + 1442695040888963407) % 2 ^ 64

/-- Modelled from the spec: the from-orders bar loop with random rejection —
the integer seed deterministically drives the rejection draws, each bar
comparing the next pseudorandom draw in `[0, 1)` against `reject_prob`. -/
def from_orders_seeded_go (size reject_prob : ℚ) :
    ℕ → SimState → ℕ → List ℚ → SimState × ℕ
  | _, st, rng, [] => (st, rng)
  | i, st, rng, p :: rest =>
    let rng2 := lcg_next rng
    if (rng2 : ℚ) / 2 ^ 64 < reject_prob then
      from_orders_seeded_go size reject_prob (i + 1) st rng2 rest
    else
      from_orders_seeded_go size reject_prob (i + 1)
        (from_orders_step size st i p) rng2 rest

/-- Modelled from the spec: the order records emitted by a from-orders run
under a given integer seed. -/
def simulate_from_orders_seeded (close : List ℚ) (size reject_prob init_cash : ℚ)
    (seed : ℕ) : List OrderRec :=
  (from_orders_seeded_go size reject_prob 0 ⟨init_cash, 0, []⟩ seed close).1.recs

/-- C3: replay determinism — two runs of the driver given identical input
arrays, parameters and the same integer seed emit identical order records. -/
theorem replay_determinism (close : List ℚ) (size reject_prob init_cash : ℚ)
    (seed : ℕ) (r1 r2 : List OrderRec)
    (h1 : r1 = simulate_from_orders_seeded close size reject_prob init_cash seed)
    (h2 : r2 = simulate_from_orders_seeded close size reject_prob init_cash seed) :
    r1 = r2 :=
  h1.trans h2.symm

theorem replay_determinism_witness :
    simulate_from_orders_seeded [1, 2] 1 (1 / 2) 100 42 =
      simulate_from_orders_seeded [1, 2] 1 (1 / 2) 100 42 :=
  replay_determinism [1, 2] 1 (1 / 2) 100 42 _ _ rfl rfl

/-- Side of an executed order. -/
inductive Side where
  | buy
  | sell
deriving DecidableEq

/-- An executed (filled) order: side, fill size, execution price, fees. -/
structure ExecOrder where
  side : Side
  size : ℚ
  price : ℚ
  fees : ℚ
deriving DecidableEq

/-- Column/group execution state tracked by the kernel. -/
structure ExecState where
  cash : ℚ
  free_cash : ℚ
  debt : ℚ
  position : ℚ
deriving DecidableEq

/-- Modelled from the spec: the commit step of the execute-order state
machine (spec 4.B step 7, with the glossary reading of debt and free cash:
debt is the notional of open short exposure and reserves cash, so a sell
that opens a short adds its notional to debt and withholds twice that
notional from the free-cash credit, while a buy that covers a short
releases debt at its average entry price and returns twice the released
amount to free cash). -/
def execute_order_commit (st : ExecState) (o : ExecOrder) : ExecState :=
  match o.side with
  | .buy =>
    if st.position < 0 then
      { cash := st.cash - o.size * o.price - o.fees,
        free_cash := st.free_cash +
          2 * (min o.size (-st.position) * (st.debt / -st.position)) -
          o.size * o.price - o.fees,
        debt := st.debt - min o.size (-st.position) * (st.debt / -st.position),
        position := st.position + o.size }
    else
      { cash := st.cash - o.size * o.price - o.fees,
        free_cash := st.free_cash - o.size * o.price - o.fees,
        debt := st.debt,
        position := st.position + o.size }
  | .sell =>
    if st.position - o.size < 0 then
      { cash := st.cash + o.size * o.price - o.fees,
        free_cash := st.free_cash + o.size * o.price -
          2 * ((if st.position < 0 then o.size else o.size - st.position) * o.price) -
          o.fees,
        debt := st.debt +
          (if st.position < 0 then o.size else o.size - st.position) * o.price,
        position := st.position - o.size }
    else
      { cash := st.cash + o.size * o.price - o.fees,
        free_cash := st.free_cash + o.size * o.price - o.fees,
        debt := st.debt,
        position := st.position - o.size }

/-- All intermediate states of a simulation starting from `init`. -/
def exec_states (init : ExecState) (orders : List ExecOrder) : List ExecState :=
  orders.scanl execute_order_commit init

/-- The kernel invariant: debt is non-negative and the gap between cash and
free cash is exactly twice the debt. -/
def ExecInvariant (st : ExecState) : Prop :=
  0 ≤ st.debt ∧ st.cash - st.free_cash = 2 * st.debt

theorem execute_order_commit_invariant (st : ExecState) (o : ExecOrder)
    (hI : ExecInvariant st) (hsz : 0 ≤ o.size) (hpr : 0 ≤ o.price) :
    ExecInvariant (execute_order_commit st o) := by
  obtain ⟨hd, hgap⟩ := hI
  rcases o with ⟨side, size, price, fees⟩
  simp only at hsz hpr
  cases side
  · simp only [execute_order_commit]
    by_cases hp : st.position < 0
    · have hpos : (0 : ℚ) < -st.position := by linarith
      have hcov : min size (-st.position) ≤ -st.position := min_le_right _ _
      have hq : 0 ≤ st.debt / -st.position := div_nonneg hd (le_of_lt hpos)
      have hle : min size (-st.position) * (st.debt / -st.position) ≤
          -st.position * (st.debt / -st.position) :=
        mul_le_mul_of_nonneg_right hcov hq
      have hne : -st.position ≠ 0 := by linarith
      have hcancel : -st.position * (st.debt / -st.position) = st.debt := by
        rw [mul_comm]
        exact div_mul_cancel₀ st.debt hne
      rw [hcancel] at hle
      simp only [hp, if_true, ExecInvariant]
      constructor
      · linarith
      · ring_nf
        linarith
    · simp only [hp, if_false, ExecInvariant]
      constructor
      · exact hd
      · ring_nf
        linarith
  · simp only [execute_order_commit]
    by_cases hp : st.position - size < 0
    · have hshort : 0 ≤ (if st.position < 0 then size else size - st.position) := by
        by_cases h2 : st.position < 0 <;> simp [h2] <;> linarith
      have hsv : 0 ≤ (if st.position < 0 then size else size - st.position) * price :=
        mul_nonneg hshort hpr
      simp only [hp, if_true, ExecInvariant]
      constructor
      · linarith
      · ring_nf
        linarith
    · simp only [hp, if_false, ExecInvariant]
      constructor
      · exact hd
      · ring_nf
        linarith

theorem exec_states_invariant (orders : List ExecOrder) :
    ∀ init : ExecState, ExecInvariant init →
    (∀ o ∈ orders, 0 ≤ o.size) → (∀ o ∈ orders, 0 ≤ o.price) →
    ∀ st ∈ exec_states init orders, ExecInvariant st := by
  induction orders with
  | nil =>
    intro init hI _ _ st hst
    simp only [exec_states, List.scanl_nil, List.mem_singleton] at hst
    exact hst ▸ hI
  | cons o rest ih =>
    intro init hI hsz hpr st hst
    simp only [exec_states, List.scanl_cons] at hst
    cases hst with
    | head => exact hI
    | tail _ h =>
      exact ih (execute_order_commit init o)
        (execute_order_commit_invariant init o hI
          (hsz o (List.mem_cons_self o rest)) (hpr o (List.mem_cons_self o rest)))
        (fun x hx => hsz x (List.mem_cons_of_mem o hx))
        (fun x hx => hpr x (List.mem_cons_of_mem o hx))
        st h

/-- C2: starting from initial cash (free cash equal to cash, no debt), after
every executed order the free-cash series stays at or below the cash series
and the tracked short debt stays non-negative. -/
theorem free_cash_le_cash_debt_nonneg (init_cash init_position : ℚ)
    (orders : List ExecOrder)
    (hsz : ∀ o ∈ orders, 0 ≤ o.size) (hpr : ∀ o ∈ orders, 0 ≤ o.price) :
    ∀ st ∈ exec_states ⟨init_cash, init_cash, 0, init_position⟩ orders,
      st.free_cash ≤ st.cash ∧ 0 ≤ st.debt := by
  intro st hst
  have hI : ExecInvariant ⟨init_cash, init_cash, 0, init_position⟩ := by
    constructor <;> simp
  obtain ⟨hd, hgap⟩ := exec_states_invariant orders _ hI hsz hpr st hst
  exact ⟨by linarith, hd⟩

/-- A short sale followed by a partial cover, for the C2 witness. -/
def demo_orders : List ExecOrder :=
  [⟨.sell, 5, 2, 0⟩, ⟨.buy, 3, 1, 0⟩]

theorem free_cash_le_cash_debt_nonneg_witness :
    (∀ o ∈ demo_orders, 0 ≤ o.size) ∧ (∀ o ∈ demo_orders, 0 ≤ o.price) ∧
    ∀ st ∈ exec_states ⟨100, 100, 0, 0⟩ demo_orders,
      st.free_cash ≤ st.cash ∧ 0 ≤ st.debt :=
  ⟨by norm_num [demo_orders], by norm_num [demo_orders],
   free_cash_le_cash_debt_nonneg 100 0 demo_orders
     (by norm_num [demo_orders]) (by norm_num [demo_orders])⟩
